import Mathlib

/-!
Verification of the earthquake-app data-normalization and filtering pipeline.

The Python source (earthquake-app.py) is shallowly embedded below:

* `fetch_earthquake_data` — the feed normalizer (lines 26–47): it walks the
  payload's feature list, reads `properties` / `geometry` sub-objects (a
  missing sub-object raises `KeyError`, modelled as `Except.error`), converts
  the epoch-millisecond time to a UTC timestamp and a timezone-aware
  local timestamp in America/Los_Angeles, and collects the records into a
  pandas `DataFrame` (modelled by `DataFrame`, which records whether the
  frame has columns: `pd.DataFrame([])` has none).
* the magnitude filter (lines 69–70), `apply_region_filter` (lines 74–78)
  and the keyword search (lines 85–87).  pandas `Series.str.contains`
  defaults to regular-expression matching; the fragment of regex syntax the
  app can exercise with its catalog patterns (literal characters, the `.`
  wildcard and top-level `|` alternation, matched case-insensitively) is
  modelled by `parsePat` / `patSearch`; any other regex metacharacter is
  outside the modelled fragment and yields an error.
* the date-column derivation of the time-lapse section (line 161), modelled
  by `addDateColumn`, with the tz-aware local calendar date computed by
  `localDateStr`.

Floating-point magnitudes, coordinates and thresholds are idealized as
rationals; an absent (`null`/NaN) magnitude is `Option.none`, which matches
no `>=` test, exactly like NaN in pandas.  `pytz`'s America/Los_Angeles
zone is modelled by its UTC offset as a function of the absolute instant,
with the DST rule instantiated for the era around the epoch (the instants
the properties below exercise).
-/

namespace EarthquakeApp

/-- `properties` sub-object of a feed feature: `time` (epoch ms), `mag`
(nullable float, `none` = JSON null) and `place`. -/
structure RawProperties where
  time : Int
  mag : Option ℚ
  place : String
deriving DecidableEq

/-- `geometry` sub-object of a feed feature: the `coordinates` array
`[lon, lat, ...]`. -/
structure RawGeometry where
  coordinates : List ℚ
deriving DecidableEq

/-- One `feature` entry of the payload.  A malformed feature may lack the
`properties` or `geometry` sub-object (`none`); accessing a missing key in
Python raises `KeyError`. -/
structure RawFeature where
  properties : Option RawProperties
  geometry : Option RawGeometry
deriving DecidableEq

/-- A tz-naive pandas timestamp: the absolute instant in epoch milliseconds
(`pd.to_datetime(t, unit='ms')` is exact at millisecond precision). -/
structure Timestamp where
  ms : Int
deriving DecidableEq

/-- A timezone-aware pandas timestamp: the absolute instant in epoch
milliseconds together with the zone name and the zone's UTC offset (in
minutes) at that instant.  `tz_convert` preserves the absolute instant. -/
structure TzTimestamp where
  ms : Int
  offsetMinutes : Int
  zone : String
deriving DecidableEq

/-- Whether America/Los_Angeles observes daylight-saving time at the given
absolute instant.  Modelled from the tz database rule in force around the
epoch (US 1970 rule: DST from the last Sunday in April, 1970-04-26T10:00Z,
to the last Sunday in October, 1970-10-25T09:00Z); valid for the era the
theorems below exercise. -/
def laIsDst (ms : Int) : Bool :=
  decide (9972000000 ≤ ms ∧ ms < 25693200000)

/-- UTC offset, in minutes, of America/Los_Angeles at the given absolute
instant: -480 (PST) in standard time, -420 (PDT) during DST. -/
def laUtcOffsetMinutes (ms : Int) : Int :=
  if laIsDst ms then -420 else -480

/-- `pd.to_datetime(t, unit='ms')`: exact conversion of epoch milliseconds
to a tz-naive timestamp. -/
def pdToDatetimeMs (t : Int) : Timestamp := ⟨t⟩

/-- `ts.tz_localize('UTC')`: attach the UTC zone (offset 0) without moving
the instant. -/
def tzLocalizeUTC (t : Timestamp) : TzTimestamp := ⟨t.ms, 0, "UTC"⟩

/-- `ts.tz_convert(pytz.timezone('America/Los_Angeles'))`: same absolute
instant, re-expressed in the fixed named zone. -/
def tzConvertLA (t : TzTimestamp) : TzTimestamp :=
  ⟨t.ms, laUtcOffsetMinutes t.ms, "America/Los_Angeles"⟩

/-- One normalized event record (one row of the normalizer's frame). -/
structure Record where
  place : String
  magnitude : Option ℚ
  time_utc : Timestamp
  time_local : TzTimestamp
  latitude : ℚ
  longitude : ℚ
deriving DecidableEq

/-- A pandas `DataFrame` as the app observes it: `hasCols` records whether
the frame has the six record columns (`pd.DataFrame([])`, built from an
empty list, has no columns, so a later column access raises `KeyError`);
`dateCol` is the extra "date" column once line 161 has added it. -/
structure DataFrame where
  hasCols : Bool
  rows : List Record
  dateCol : Option (List String)
deriving DecidableEq

/-- `pd.DataFrame(list_of_dicts)`: column structure is inferred from the
dict keys, so an empty list yields a frame with no columns. -/
def pd_DataFrame (rows : List Record) : DataFrame :=
  ⟨!rows.isEmpty, rows, none⟩

/-- `geometry['coordinates'][i]`: Python list indexing raises `IndexError`
when the index is out of range. -/
def listIndex (l : List ℚ) (i : Nat) : Except String ℚ :=
  match l[i]? with
  | some x => Except.ok x
  | none => Except.error ("IndexError")

/-- The loop body of `fetch_earthquake_data` (lines 33–45): read the
`properties` and `geometry` sub-objects (raising `KeyError` if missing),
convert the time, and build the record dict.  The dict literal evaluates
`coordinates[1]` (latitude) before `coordinates[0]` (longitude). -/
def normalizeFeature (feature : RawFeature) : Except String Record := do
  let properties ← match feature.properties with
    | some p => Except.ok p
    | none => Except.error ("KeyError: properties")
  let geometry ← match feature.geometry with
    | some g => Except.ok g
    | none => Except.error ("KeyError: geometry")
  let utc_time := pdToDatetimeMs properties.time
  let local_time := tzConvertLA (tzLocalizeUTC utc_time)
  let latitude ← listIndex geometry.coordinates 1
  let longitude ← listIndex geometry.coordinates 0
  Except.ok { place := properties.place
              magnitude := properties.mag
              time_utc := utc_time
              time_local := local_time
              latitude := latitude
              longitude := longitude }

/-- The `for feature in features` loop: records are appended in input
order; the first raising feature aborts the whole loop with its error. -/
def normalizeAll : List RawFeature → Except String (List Record)
  | [] => Except.ok []
  | f :: fs => do
    let r ← normalizeFeature f
    let rs ← normalizeAll fs
    Except.ok (r :: rs)

/-- `fetch_earthquake_data` (lines 26–47), given the already-deserialized
`features` list: normalize every feature and build the frame. -/
def fetch_earthquake_data (features : List RawFeature) : Except String DataFrame := do
  let earthquakes ← normalizeAll features
  Except.ok (pd_DataFrame earthquakes)

/-- The elementwise test of line 69, `df["magnitude"] >= min_magnitude`:
an absent magnitude is NaN in the frame and NaN satisfies no `>=`
comparison. -/
def magGe (m : Option ℚ) (min_magnitude : ℚ) : Bool :=
  match m with
  | none => false
  | some x => decide (min_magnitude ≤ x)

/-- The magnitude filter (lines 69–70) on the row sequence:
`df[df["magnitude"] >= min_magnitude]`. -/
def magnitudeFilter (min_magnitude : ℚ) (df : List Record) : List Record :=
  df.filter (fun r => magGe r.magnitude min_magnitude)

/-- The magnitude filter at frame level: the column subscript
`df["magnitude"]` raises `KeyError` when the frame has no columns (which
is what `pd.DataFrame([])` returns for an empty payload). -/
def magnitudeFilterStage (min_magnitude : ℚ) (df : DataFrame) : Except String DataFrame :=
  if df.hasCols then
    Except.ok { df with rows := magnitudeFilter min_magnitude df.rows }
  else Except.error ("KeyError: magnitude")

/-- One atom of the modelled regular-expression fragment: a literal
character or the `.` wildcard. -/
inductive Atom where
  | lit (c : Char)
  | dot
deriving DecidableEq

/-- Case-insensitive match of one atom against one character
(`Series.str.contains(..., case=False)` compiles the pattern with
`re.IGNORECASE`). -/
def atomMatch (a : Atom) (c : Char) : Bool :=
  match a with
  | Atom.lit d => d.toLower == c.toLower
  | Atom.dot => true

/-- Whether one alternation branch matches a prefix of the string. -/
def branchAccepts : List Atom → List Char → Bool
  | [], _ => true
  | _ :: _, [] => false
  | a :: br, c :: s => atomMatch a c && branchAccepts br s

/-- All suffixes of a string, by start position, left to right — the
positions `re.search` tries in order. -/
def sufs : List Char → List (List Char)
  | [] => [[]]
  | c :: cs => (c :: cs) :: sufs cs

/-- `re.search` for a pattern of the modelled fragment: some branch of the
alternation matches starting at some position. -/
def patSearch (branches : List (List Atom)) (s : List Char) : Bool :=
  (sufs s).any (fun t => branches.any (fun br => branchAccepts br t))

/-- Regex metacharacters outside the modelled fragment (grouping, classes,
quantifiers — including brace quantifiers such as `a{2}` — escapes,
anchors).  Patterns using them are not modelled — Python would give them
their own regex meaning (or raise `re.error`). -/
def isBadMeta (c : Char) : Bool :=
  c == '(' || c == ')' || c == '[' || c == ']' || c == '*' ||
  c == '+' || c == '?' || c == '^' || c == '$' || c == '\\' ||
  c == '\x7b' || c == '\x7d'

/-- Compile one alternation branch: `.` becomes the wildcard, every other
non-metacharacter is a literal. -/
def parseBranch : List Char → Except String (List Atom)
  | [] => Except.ok []
  | c :: cs =>
    if isBadMeta c then Except.error ("unmodeled regex metacharacter")
    else match parseBranch cs with
      | Except.ok br => Except.ok ((if c == '.' then Atom.dot else Atom.lit c) :: br)
      | Except.error e => Except.error e

/-- Split a pattern at its top-level `|` alternation bars (the modelled
fragment has no grouping, so every bar is top-level). -/
def splitBar : List Char → List (List Char)
  | [] => [[]]
  | c :: cs =>
    if c == '|' then [] :: splitBar cs
    else match splitBar cs with
      | [] => [[c]]
      | b :: bs => (c :: b) :: bs

/-- Compile every alternation branch. -/
def parseBranches : List (List Char) → Except String (List (List Atom))
  | [] => Except.ok []
  | b :: bs =>
    match parseBranch b with
    | Except.error e => Except.error e
    | Except.ok br =>
      match parseBranches bs with
      | Except.error e => Except.error e
      | Except.ok brs => Except.ok (br :: brs)

/-- Compile a whole pattern of the modelled fragment. -/
def parsePat (pat : List Char) : Except String (List (List Atom)) :=
  parseBranches (splitBar pat)

/-- `"|".join(words)` of line 78, on character lists. -/
def joinBar : List (List Char) → List Char
  | [] => []
  | [w] => w
  | w :: ws => w ++ '|' :: joinBar ws

/-- The `REGION_KEYWORDS` catalog (lines 13–22), in source order. -/
def REGION_KEYWORDS : List (String × List String) :=
  [ ("Asia", ["China", "Japan", "India", "Indonesia", "Philippines", "Nepal", "Turkey", "Iran", "Pakistan"]),
    ("North America", ["California", "Alaska", "Mexico", "USA", "Hawaii", "Canada"]),
    ("South America", ["Chile", "Peru", "Argentina", "Ecuador", "Colombia", "Bolivia"]),
    ("Europe", ["Italy", "Greece", "Romania", "Spain", "Iceland", "Portugal", "France"]),
    ("Africa", ["Morocco", "Tanzania", "Ethiopia", "South Africa", "Algeria", "Egypt"]),
    ("Oceania", ["New Zealand", "Australia", "Papua", "Fiji", "Samoa"]),
    ("Middle East", ["Iran", "Iraq", "Syria", "Israel", "Saudi Arabia", "Jordan", "Lebanon"]),
    ("Pacific Ocean", ["Pacific", "Tonga", "Vanuatu", "Kermadec", "Solomon", "Guam"]) ]

/-- Python dict lookup `REGION_KEYWORDS[name]`, as an `Option`. -/
def lookupRegion (name : String) : Option (List String) :=
  match REGION_KEYWORDS.find? (fun kv => kv.fst == name) with
  | some kv => some kv.snd
  | none => none

/-- The list comprehension of line 77
(`[term for region in selected_regions for term in REGION_KEYWORDS[region]]`)
region by region; a name absent from the catalog raises `KeyError`. -/
def lookupKeywordLists : List String → Except String (List (List String))
  | [] => Except.ok []
  | region :: rest =>
    match lookupRegion region with
    | none => Except.error ("KeyError: region")
    | some ks =>
      match lookupKeywordLists rest with
      | Except.error e => Except.error e
      | Except.ok rests => Except.ok (ks :: rests)

/-- `apply_region_filter` (lines 74–78): empty selection is the identity;
otherwise the selected regions' keyword lists are concatenated, joined
with `|` into one pattern and matched case-insensitively against `place`
by `str.contains`. -/
def applyRegionFilter (selected_regions : List String) (df : List Record) :
    Except String (List Record) :=
  if selected_regions.isEmpty then Except.ok df
  else
    match lookupKeywordLists selected_regions with
    | Except.error e => Except.error e
    | Except.ok kwLists =>
      match parsePat (joinBar ((kwLists.flatten).map String.toList)) with
      | Except.error e => Except.error e
      | Except.ok p => Except.ok (df.filter (fun r => patSearch p r.place.toList))

/-- The keyword search (lines 85–87): the stage only runs when
`location_keyword` is truthy (non-empty), and matches the raw query as a
case-insensitive regular expression via `str.contains`. -/
def keywordFilter (location_keyword : String) (df : List Record) :
    Except String (List Record) :=
  if location_keyword.isEmpty then Except.ok df
  else
    match parsePat location_keyword.toList with
    | Except.error e => Except.error e
    | Except.ok p => Except.ok (df.filter (fun r => patSearch p r.place.toList))

/-- The region filter's success value depends on the rows only through a
fixed predicate; this computes that predicate (or the stage's error). -/
def regionPredE (selected_regions : List String) : Except String (Record → Bool) :=
  if selected_regions.isEmpty then Except.ok (fun _ => true)
  else
    match lookupKeywordLists selected_regions with
    | Except.error e => Except.error e
    | Except.ok kwLists =>
      match parsePat (joinBar ((kwLists.flatten).map String.toList)) with
      | Except.error e => Except.error e
      | Except.ok p => Except.ok (fun r => patSearch p r.place.toList)

/-- The keyword filter's predicate (or error), independent of the rows. -/
def keywordPredE (location_keyword : String) : Except String (Record → Bool) :=
  if location_keyword.isEmpty then Except.ok (fun _ => true)
  else
    match parsePat location_keyword.toList with
    | Except.error e => Except.error e
    | Except.ok p => Except.ok (fun r => patSearch p r.place.toList)

/-- A character with no regex meaning in the modelled fragment: not a
metacharacter, not the wildcard, not the alternation bar. -/
def litChar (c : Char) : Bool :=
  !isBadMeta c && c != '.' && c != '|'

/-- A string that is a plain literal under regex interpretation. -/
def litStrB (s : String) : Bool :=
  s.toList.all litChar

/-- Characters of a string, lower-cased — the case-folding under which the
app's `case=False` matching compares text. -/
def lowerChars (s : String) : List Char :=
  s.toList.map Char.toLower

/-- Specification-side predicate, following the spec's words: `sub` occurs
in `s` as a case-insensitive substring (a prefix of some suffix of the
case-folded text). -/
def containsCI (s sub : String) : Bool :=
  (sufs (lowerChars s)).any (fun t => (lowerChars sub).isPrefixOf t)

/-- Specification-side keyword filter, following the spec's words: identity
on the empty query, otherwise keep the records whose `place` contains the
query as a case-insensitive substring. -/
def keywordFilterSpec (query : String) (df : List Record) : List Record :=
  if query.isEmpty then df
  else df.filter (fun r => containsCI r.place query)

/-- The union (as a concatenation) of the selected regions' keyword sets. -/
def unionKeywords (selected : List String) : List String :=
  (selected.map (fun n => (lookupRegion n).getD [])).flatten

/-- Specification-side region filter, following the spec's words: identity
on the empty selection, otherwise keep the records whose `place` contains
at least one keyword of the selected regions' union, case-insensitively. -/
def regionFilterSpec (selected : List String) (df : List Record) : List Record :=
  if selected.isEmpty then df
  else df.filter (fun r => (unionKeywords selected).any (fun w => containsCI r.place w))

/-- Civil date (year, month, day) of a count of days since 1970-01-01, by
the standard era-based conversion on the proleptic Gregorian calendar. -/
def civilFromDays (z0 : Int) : Int × Int × Int :=
  let z := z0 + 719468
  let era := Int.fdiv z 146097
  let doe := z - era * 146097
  let yoe := Int.fdiv (doe - Int.fdiv doe 1460 + Int.fdiv doe 36524 - Int.fdiv doe 146096) 365
  let y := yoe + era * 400
  let doy := doe - (365 * yoe + Int.fdiv yoe 4 - Int.fdiv yoe 100)
  let mp := Int.fdiv (5 * doy + 2) 153
  let d := doy - Int.fdiv (153 * mp + 2) 5 + 1
  let m := mp + (if mp < 10 then 3 else -9)
  (y + (if m ≤ 2 then 1 else 0), m, d)

/-- Zero-pad a calendar component to two digits. -/
def pad2 (n : Int) : String :=
  if n < 10 then "0" ++ toString n else toString n

/-- ISO formatting `YYYY-MM-DD`, as Python's `str` on a `datetime.date`
(years of interest are four-digit). -/
def formatDate (ymd : Int × Int × Int) : String :=
  toString ymd.1 ++ "-" ++ pad2 ymd.2.1 ++ "-" ++ pad2 ymd.2.2

/-- `.dt.date.astype(str)` on a tz-aware timestamp: the calendar date of
the zone's wall clock (instant shifted by the zone offset), as a string. -/
def localDateStr (t : TzTimestamp) : String :=
  formatDate (civilFromDays (Int.fdiv (t.ms + t.offsetMinutes * 60000) 86400000))

/-- Line 161, `historical_data["date"] = historical_data["time_local"].dt.date.astype(str)`:
the frame gains a "date" column holding each row's local calendar date. -/
def addDateColumn (df : DataFrame) : DataFrame :=
  { df with dateCol := some (df.rows.map (fun r => localDateStr r.time_local)) }

/-- Concrete well-formed feature used by the batch-abort counterexample. -/
def goodFeature : RawFeature :=
  ⟨some ⟨0, some 5, "Somewhere"⟩, some ⟨[10, 20]⟩⟩

/-- Concrete malformed feature: the `geometry` sub-object is missing. -/
def badFeature : RawFeature :=
  ⟨some ⟨0, some 3, "Nowhere"⟩, none⟩

/-- The record `goodFeature` normalizes to. -/
def goodRecord : Record :=
  ⟨"Somewhere", some 5, ⟨0⟩, ⟨0, -480, "America/Los_Angeles"⟩, 20, 10⟩

/-- Concrete record with place "Tokyo, Japan". -/
def tokyoRec : Record :=
  ⟨"Tokyo, Japan", some 5, ⟨0⟩, ⟨0, -480, "America/Los_Angeles"⟩, 35, 139⟩

/-- Concrete record with the spec's example place in California. -/
def anytownRec : Record :=
  ⟨"10km NW of Anytown, California", some 4, ⟨0⟩, ⟨0, -480, "America/Los_Angeles"⟩, 36, -120⟩

/-- Concrete record whose magnitude is absent (JSON null / NaN). -/
def noneMagRec : Record :=
  ⟨"Null Island", none, ⟨0⟩, ⟨0, -480, "America/Los_Angeles"⟩, 0, 0⟩

/-- Concrete one-row frame used by the date-column counterexample. -/
def df0 : DataFrame := pd_DataFrame [tokyoRec]

/-- The elementwise magnitude test succeeds exactly on a present magnitude
at least the threshold. -/
theorem magGe_eq_true_iff (m : Option ℚ) (t : ℚ) :
    magGe m t = true ↔ ∃ x : ℚ, m = some x ∧ t ≤ x := by
  cases m with
  | none => simp [magGe]
  | some x => simp [magGe]

/-- A feature whose `properties` or `geometry` sub-object is missing makes
the loop body raise. -/
theorem normalizeFeature_missing (f : RawFeature)
    (h : f.properties = none ∨ f.geometry = none) :
    (normalizeFeature f).isOk = false := by
  cases hp : f.properties with
  | none => simp only [normalizeFeature, hp]; rfl
  | some p =>
    rcases h with h | h
    · rw [hp] at h; exact absurd h (by simp)
    · simp only [normalizeFeature, hp, h]; rfl

/-- If any feature of the batch raises, the whole loop raises. -/
theorem normalizeAll_malformed (fs : List RawFeature)
    (h : ∃ f ∈ fs, f.properties = none ∨ f.geometry = none) :
    (normalizeAll fs).isOk = false := by
  induction fs with
  | nil => simp at h
  | cons f fs ih =>
    rcases h with ⟨g, hg, hbad⟩
    rcases List.mem_cons.mp hg with rfl | hg2
    · have hng := normalizeFeature_missing g hbad
      cases he : normalizeFeature g with
      | error e => simp only [normalizeAll, he]; rfl
      | ok r => rw [he] at hng; simp [Except.isOk, Except.toBool] at hng
    · have hrest := ih ⟨g, hg2, hbad⟩
      cases he : normalizeFeature f with
      | error e => simp only [normalizeAll, he]; rfl
      | ok r =>
        cases ha : normalizeAll fs with
        | error e => simp only [normalizeAll, he, ha]; rfl
        | ok rs => rw [ha] at hrest; simp [Except.isOk, Except.toBool] at hrest

/-- A branch of literal atoms matches a prefix exactly when the case-folded
branch text is a prefix of the case-folded input. -/
theorem branchAccepts_lit (w : List Char) : ∀ t : List Char,
    branchAccepts (w.map Atom.lit) t
      = (w.map Char.toLower).isPrefixOf (t.map Char.toLower) := by
  induction w with
  | nil => intro t; cases t <;> rfl
  | cons a w ih =>
    intro t
    cases t with
    | nil => rfl
    | cons c t => simp [branchAccepts, atomMatch, List.isPrefixOf, ih]

/-- Compiling a string with no regex-significant characters yields one
branch of literal atoms. -/
theorem parseBranch_lit (w : List Char) (h : w.all litChar = true) :
    parseBranch w = Except.ok (w.map Atom.lit) := by
  induction w with
  | nil => rfl
  | cons c cs ih =>
    rw [List.all_cons, Bool.and_eq_true] at h
    have h1 := h.1
    rw [litChar, Bool.and_eq_true, Bool.and_eq_true] at h1
    have hm : isBadMeta c = false := by
      have := h1.1.1; simpa using this
    have hd : (c == '.') = false := by
      have := h1.1.2; simpa [bne] using this
    simp [parseBranch, hm, hd, ih h.2]

/-- Compiling bar-free literal branches. -/
theorem parseBranches_lit (ws : List (List Char))
    (h : ∀ w ∈ ws, w.all litChar = true) :
    parseBranches ws = Except.ok (ws.map (fun w => w.map Atom.lit)) := by
  induction ws with
  | nil => rfl
  | cons w ws ih =>
    simp [parseBranches, parseBranch_lit w (h w (by simp)),
      ih (fun x hx => h x (by simp [hx]))]

/-- A bar-free string splits into a single branch. -/
theorem splitBar_nobar (w : List Char) (h : w.all (fun c => c != '|') = true) :
    splitBar w = [w] := by
  induction w with
  | nil => rfl
  | cons c cs ih =>
    rw [List.all_cons, Bool.and_eq_true] at h
    have hc : (c == '|') = false := by
      have := h.1; simpa [bne] using this
    simp [splitBar, hc, ih h.2]

/-- Splitting a bar-free chunk followed by a bar peels off the chunk. -/
theorem splitBar_append_bar (w : List Char) (rest : List Char)
    (h : w.all (fun c => c != '|') = true) :
    splitBar (w ++ '|' :: rest) = w :: splitBar rest := by
  induction w with
  | nil => simp [splitBar]
  | cons c cs ih =>
    rw [List.all_cons, Bool.and_eq_true] at h
    have hc : (c == '|') = false := by
      have := h.1; simpa [bne] using this
    simp [splitBar, hc, ih h.2]

/-- Splitting undoes joining for a non-empty list of bar-free words — the
shape of every pattern line 78 builds from catalog keywords. -/
theorem splitBar_joinBar (ws : List (List Char)) (hne : ws ≠ [])
    (h : ∀ w ∈ ws, w.all (fun c => c != '|') = true) :
    splitBar (joinBar ws) = ws := by
  induction ws with
  | nil => exact absurd rfl hne
  | cons w ws ih =>
    cases ws with
    | nil => exact splitBar_nobar w (h w (by simp))
    | cons w2 ws2 =>
      rw [show joinBar (w :: w2 :: ws2) = w ++ '|' :: joinBar (w2 :: ws2) from rfl]
      rw [splitBar_append_bar w _ (h w (by simp))]
      rw [ih (by simp) (fun x hx => h x (by simp [hx]))]

/-- Suffix enumeration commutes with character mapping. -/
theorem sufs_map (f : Char → Char) (l : List Char) :
    sufs (l.map f) = (sufs l).map (List.map f) := by
  induction l with
  | nil => rfl
  | cons c cs ih => simp [sufs, ih]

/-- Searching the compiled alternation of literal keyword strings in a
place string is exactly: some keyword occurs as a case-insensitive
substring. -/
theorem patSearch_words (ws : List String) (place : String) :
    patSearch (ws.map (fun w => w.toList.map Atom.lit)) place.toList
      = ws.any (fun w => containsCI place w) := by
  rw [Bool.eq_iff_iff]
  simp only [patSearch, containsCI, lowerChars, List.any_eq_true, List.mem_map]
  constructor
  · rintro ⟨t, ht, br, ⟨w, hw, rfl⟩, hacc⟩
    rw [branchAccepts_lit] at hacc
    refine ⟨w, hw, List.map Char.toLower t, ?_, hacc⟩
    rw [sufs_map]
    exact List.mem_map.mpr ⟨t, ht, rfl⟩
  · rintro ⟨w, hw, t', ht', hp⟩
    rw [sufs_map] at ht'
    obtain ⟨t, ht, rfl⟩ := List.mem_map.mp ht'
    refine ⟨t, ht, w.toList.map Atom.lit, ⟨w, hw, rfl⟩, ?_⟩
    rw [branchAccepts_lit]
    exact hp

/-- Every catalog keyword is a plain literal under regex interpretation
(no metacharacter, no wildcard, no alternation bar). -/
theorem catalog_keywords_lit :
    REGION_KEYWORDS.all (fun kv => kv.snd.all litStrB) = true := by decide

/-- Every catalog region has at least one keyword. -/
theorem catalog_keywords_ne_nil :
    REGION_KEYWORDS.all (fun kv => !kv.snd.isEmpty) = true := by decide

/-- Keywords fetched from the catalog are literal strings. -/
theorem lookupRegion_keyword_lit (n w : String)
    (hw : w ∈ (lookupRegion n).getD []) : litStrB w = true := by
  unfold lookupRegion at hw
  cases hfind : REGION_KEYWORDS.find? (fun kv => kv.fst == n) with
  | none => rw [hfind] at hw; simp at hw
  | some kv =>
    rw [hfind] at hw
    simp only [Option.getD_some] at hw
    have hmem := List.mem_of_find?_eq_some hfind
    have hall := catalog_keywords_lit
    rw [List.all_eq_true] at hall
    have h2 := hall kv hmem
    rw [List.all_eq_true] at h2
    exact h2 w hw

/-- A successful catalog lookup returns a non-empty keyword list. -/
theorem lookupRegion_ne_nil (n : String) (h : (lookupRegion n).isSome = true) :
    (lookupRegion n).getD [] ≠ [] := by
  unfold lookupRegion
  cases hfind : REGION_KEYWORDS.find? (fun kv => kv.fst == n) with
  | none =>
    unfold lookupRegion at h
    rw [hfind] at h
    simp at h
  | some kv =>
    have hmem := List.mem_of_find?_eq_some hfind
    have hall := catalog_keywords_ne_nil
    rw [List.all_eq_true] at hall
    have h2 := hall kv hmem
    intro hnil
    have h3 : kv.snd = [] := hnil
    rw [h3] at h2
    simp at h2

/-- The comprehension of line 77 succeeds on catalog names and collects
each region's keyword list. -/
theorem lookupKeywordLists_ok (sel : List String)
    (h : ∀ n ∈ sel, (lookupRegion n).isSome = true) :
    lookupKeywordLists sel
      = Except.ok (sel.map (fun n => (lookupRegion n).getD [])) := by
  induction sel with
  | nil => rfl
  | cons n rest ih =>
    obtain ⟨ks, hks⟩ := Option.isSome_iff_exists.mp (h n (by simp))
    simp [lookupKeywordLists, hks, ih (fun x hx => h x (by simp [hx]))]

/-- Every keyword of the selected regions' union is a literal string. -/
theorem unionKeywords_lit (sel : List String) (w : String)
    (hw : w ∈ unionKeywords sel) : litStrB w = true := by
  unfold unionKeywords at hw
  rw [List.mem_flatten] at hw
  obtain ⟨l, hl, hwl⟩ := hw
  obtain ⟨n, _, rfl⟩ := List.mem_map.mp hl
  exact lookupRegion_keyword_lit n w hwl

/-- The union of keyword lists over a non-empty catalog selection is
non-empty. -/
theorem unionKeywords_ne_nil (n : String) (rest : List String)
    (h : (lookupRegion n).isSome = true) :
    unionKeywords (n :: rest) ≠ [] := by
  unfold unionKeywords
  rw [List.map_cons, List.flatten_cons]
  intro hnil
  rcases List.append_eq_nil.mp hnil with ⟨h1, -⟩
  exact lookupRegion_ne_nil n h h1

/-- Compiling the joined pattern of a non-empty list of literal words
yields exactly one literal branch per word. -/
theorem parsePat_lit_words (ws : List String) (hne : ws ≠ [])
    (h : ∀ w ∈ ws, litStrB w = true) :
    parsePat (joinBar (ws.map String.toList))
      = Except.ok (ws.map (fun w => w.toList.map Atom.lit)) := by
  have hlit : ∀ w ∈ ws.map String.toList, w.all litChar = true := by
    intro w hw
    obtain ⟨w0, hw0, rfl⟩ := List.mem_map.mp hw
    exact h w0 hw0
  unfold parsePat
  rw [splitBar_joinBar _ (by simpa using hne) ?nobar]
  case nobar =>
    intro w hw
    have hl := hlit w hw
    rw [List.all_eq_true] at hl ⊢
    intro c hc
    have h1 := hl c hc
    rw [litChar, Bool.and_eq_true] at h1
    exact h1.2
  rw [parseBranches_lit _ hlit, List.map_map]
  rfl

/-- Compiling a single literal word (the keyword-search pattern when the
query has no regex-significant character). -/
theorem parsePat_lit_single (w : String) (h : litStrB w = true) :
    parsePat w.toList = Except.ok [w.toList.map Atom.lit] := by
  unfold parsePat
  rw [splitBar_nobar]
  · exact parseBranches_lit [w.toList]
      (by intro x hx; rw [List.mem_singleton] at hx; subst hx; exact h)
  · rw [List.all_eq_true]
    intro c hc
    have h1 : litChar c = true := by
      rw [litStrB, List.all_eq_true] at h
      exact h c hc
    rw [litChar, Bool.and_eq_true] at h1
    exact h1.2

/-- On a selection of catalog names, `apply_region_filter` succeeds and
keeps exactly the records whose place contains some keyword of the
selection's union as a case-insensitive substring. -/
theorem applyRegionFilter_spec (sel : List String)
    (h : ∀ n ∈ sel, (lookupRegion n).isSome = true) (rows : List Record) :
    applyRegionFilter sel rows = Except.ok (regionFilterSpec sel rows) := by
  cases sel with
  | nil => rfl
  | cons n rest =>
    have hkw : ∀ w ∈ unionKeywords (n :: rest), litStrB w = true :=
      fun w hw => unionKeywords_lit (n :: rest) w hw
    have hne : unionKeywords (n :: rest) ≠ [] :=
      unionKeywords_ne_nil n rest (h n (by simp))
    unfold applyRegionFilter regionFilterSpec
    rw [lookupKeywordLists_ok (n :: rest) h]
    simp only [List.isEmpty_cons, if_false, Bool.false_eq_true]
    have hflat :
        (List.map (fun n => (lookupRegion n).getD []) (n :: rest)).flatten
          = unionKeywords (n :: rest) := rfl
    rw [hflat, parsePat_lit_words (unionKeywords (n :: rest)) hne hkw]
    exact congrArg Except.ok
      (List.filter_congr (fun r _ => patSearch_words (unionKeywords (n :: rest)) r.place))

/-- The keyword search on a regex-insignificant (literal) query succeeds
and keeps exactly the records whose place contains the query as a
case-insensitive substring; the empty query is the identity. -/
theorem keywordFilter_spec (q : String) (rows : List Record)
    (h : litStrB q = true) :
    keywordFilter q rows = Except.ok (keywordFilterSpec q rows) := by
  unfold keywordFilter keywordFilterSpec
  cases hq : q.isEmpty with
  | true => simp [hq]
  | false =>
    simp only [hq, Bool.false_eq_true, if_false]
    rw [parsePat_lit_single q h]
    exact congrArg Except.ok
      (List.filter_congr (fun r _ => by simpa using patSearch_words [q] r.place))

/-- The region stage's success or failure, and on success its predicate,
depend only on the selection, never on the rows. -/
theorem applyRegionFilter_eq_predE (sel : List String) (rows : List Record) :
    applyRegionFilter sel rows
      = Except.map (fun p => rows.filter p) (regionPredE sel) := by
  unfold applyRegionFilter regionPredE
  cases sel.isEmpty with
  | true => simp [Except.map, List.filter_true]
  | false =>
    simp only [Bool.false_eq_true, if_false]
    cases lookupKeywordLists sel with
    | error e => rfl
    | ok kwLists =>
      have haux : ∀ y : Except String (List (List Atom)),
          (match y with
           | Except.error e => Except.error e
           | Except.ok p => Except.ok (List.filter (fun r => patSearch p r.place.toList) rows))
            = Except.map (fun p => List.filter p rows)
              (match y with
               | Except.error e => (Except.error e : Except String (Record → Bool))
               | Except.ok p => Except.ok (fun r => patSearch p r.place.toList)) := by
        intro y
        cases y <;> rfl
      exact haux (parsePat (joinBar ((kwLists.flatten).map String.toList)))

/-- The keyword stage's success or failure, and on success its predicate,
depend only on the query, never on the rows. -/
theorem keywordFilter_eq_predE (q : String) (rows : List Record) :
    keywordFilter q rows
      = Except.map (fun p => rows.filter p) (keywordPredE q) := by
  unfold keywordFilter keywordPredE
  cases q.isEmpty with
  | true => simp [Except.map, List.filter_true]
  | false =>
    simp only [Bool.false_eq_true, if_false]
    cases parsePat q.toList with
    | error e => rfl
    | ok p => rfl

/-- Two `List.filter`s commute. -/
theorem filter_comm_bool {α : Type} (p q : α → Bool) (l : List α) :
    (l.filter p).filter q = (l.filter q).filter p := by
  rw [List.filter_filter, List.filter_filter]
  refine List.filter_congr ?_
  intro a _
  exact Bool.and_comm (q a) (p a)

/-- C1 (counterexample): a payload with one well-formed feature and one
feature with missing geometry makes the normalizer raise `KeyError` for
the whole batch — no records for the remaining features and no skip count
are produced — although the same batch without the malformed feature
normalizes fully. -/
theorem normalizer_abort_counterexample :
    fetch_earthquake_data [goodFeature, badFeature] = Except.error ("KeyError: geometry")
    ∧ fetch_earthquake_data [goodFeature] = Except.ok (pd_DataFrame [goodRecord]) :=
  ⟨rfl, rfl⟩

/-- C1 (amended): a payload containing a feature with a missing
`properties` or `geometry` sub-object makes `fetch_earthquake_data` fail
on the whole batch (the `KeyError` propagates out of the loop); the
normalizer never skips a feature and surfaces no skip count. -/
theorem normalizer_aborts_on_malformed_feature (features : List RawFeature)
    (h : ∃ f ∈ features, f.properties = none ∨ f.geometry = none) :
    (fetch_earthquake_data features).isOk = false := by
  have hall := normalizeAll_malformed features h
  unfold fetch_earthquake_data
  cases ha : normalizeAll features with
  | error e => rfl
  | ok rs => rw [ha] at hall; simp [Except.isOk, Except.toBool] at hall

/-- C1 (witness): the amended abort property at the concrete two-feature
batch whose second feature lacks its geometry. -/
theorem normalizer_aborts_on_malformed_feature_witness :
    (badFeature.properties = none ∨ badFeature.geometry = none)
    ∧ (fetch_earthquake_data [goodFeature, badFeature]).isOk = false :=
  ⟨Or.inr rfl,
    normalizer_aborts_on_malformed_feature [goodFeature, badFeature]
      ⟨badFeature, by decide, Or.inr rfl⟩⟩

/-- C2: an empty payload makes the normalizer return, without error, the
empty frame — but `pd.DataFrame([])` has no columns, so the magnitude
stage's column subscript `df["magnitude"]` then raises `KeyError` for
every threshold instead of returning an empty sequence. -/
theorem empty_payload_magnitude_stage_keyerror :
    fetch_earthquake_data [] = Except.ok (pd_DataFrame [])
    ∧ pd_DataFrame [] = { hasCols := false, rows := [], dateCol := none }
    ∧ ∀ t : ℚ, magnitudeFilterStage t (pd_DataFrame []) = Except.error ("KeyError: magnitude") :=
  ⟨rfl, rfl, fun _ => rfl⟩

/-- C3: the magnitude filter keeps exactly the records whose magnitude is
present and at least the threshold; a record with absent magnitude is
excluded for every threshold. -/
theorem magnitude_filter_keeps_exactly (min_magnitude : ℚ) (rows : List Record)
    (r : Record) :
    (r ∈ magnitudeFilter min_magnitude rows
      ↔ r ∈ rows ∧ ∃ x : ℚ, r.magnitude = some x ∧ min_magnitude ≤ x)
    ∧ (r.magnitude = none → r ∉ magnitudeFilter min_magnitude rows) := by
  constructor
  · simp [magnitudeFilter, List.mem_filter, magGe_eq_true_iff]
  · intro hnone hmem
    simp [magnitudeFilter, List.mem_filter, magGe, hnone] at hmem

/-- C3 (witness): the absent-magnitude record is excluded at threshold 2. -/
theorem magnitude_filter_keeps_exactly_witness :
    noneMagRec.magnitude = none
    ∧ noneMagRec ∉ magnitudeFilter 2 [noneMagRec, tokyoRec] :=
  ⟨rfl, (magnitude_filter_keeps_exactly 2 [noneMagRec, tokyoRec] noneMagRec).2 rfl⟩

/-- C4 (counterexample): with query ".", the keyword filter keeps the
record with place "Tokyo, Japan" although that place does not contain "."
as a substring (the query is interpreted as a regular expression, where
`.` matches any character), so the filter does not keep exactly the
records whose place contains the query as a case-insensitive substring. -/
theorem keyword_filter_regex_counterexample :
    keywordFilter (".") [tokyoRec] = Except.ok [tokyoRec]
    ∧ containsCI (tokyoRec.place) (".") = false
    ∧ keywordFilterSpec (".") [tokyoRec] = [] :=
  ⟨rfl, by decide, by decide⟩

/-- C4 (amended): the keyword filter is the identity when the query is
empty; when the query contains no regex-significant character it keeps
exactly the records whose place contains the query as a case-insensitive
substring (otherwise the query acts as a regular expression). -/
theorem keyword_filter_identity_and_substring (q : String) (rows : List Record) :
    (q = "" → keywordFilter q rows = Except.ok rows)
    ∧ (litStrB q = true → keywordFilter q rows = Except.ok (keywordFilterSpec q rows)) := by
  constructor
  · intro hq
    subst hq
    rfl
  · intro hq
    exact keywordFilter_spec q rows hq

/-- C4 (witness): the literal query "japan" keeps exactly the records
whose place contains it case-insensitively. -/
theorem keyword_filter_identity_and_substring_witness :
    litStrB ("japan") = true
    ∧ keywordFilter ("japan") [tokyoRec, anytownRec]
        = Except.ok (keywordFilterSpec ("japan") [tokyoRec, anytownRec]) :=
  ⟨by decide,
    (keyword_filter_identity_and_substring ("japan") [tokyoRec, anytownRec]).2 (by decide)⟩

/-- C5: on a selection of catalog region names, the region filter is the
identity for the empty selection and otherwise keeps exactly the records
whose place contains, case-insensitively, at least one keyword of the
union of the selected regions' keyword sets (both behaviours are the
content of `regionFilterSpec`). -/
theorem region_filter_keeps_exactly (sel : List String)
    (h : ∀ n ∈ sel, (lookupRegion n).isSome = true) (rows : List Record) :
    applyRegionFilter sel rows = Except.ok (regionFilterSpec sel rows) :=
  applyRegionFilter_spec sel h rows

/-- C5 (witness): selecting "North America" keeps the record placed
"10km NW of Anytown, California" and excludes the one placed
"Tokyo, Japan". -/
theorem region_filter_keeps_exactly_witness :
    (lookupRegion ("North America")).isSome = true
    ∧ applyRegionFilter [("North America")] [anytownRec, tokyoRec]
        = Except.ok [anytownRec] :=
  ⟨by decide, by
    have h := region_filter_keeps_exactly [("North America")] (by decide) [anytownRec, tokyoRec]
    rw [h]
    rfl⟩

/-- C6: the magnitude filter commutes with the region filter and with the
keyword filter, and region-then-keyword gives the same result as
keyword-then-region whenever both orders succeed — the filters may be
applied in any order with identical end membership. -/
theorem filters_commute (t : ℚ) (sel : List String) (q : String) (rows : List Record) :
    applyRegionFilter sel (magnitudeFilter t rows)
        = Except.map (magnitudeFilter t) (applyRegionFilter sel rows)
    ∧ keywordFilter q (magnitudeFilter t rows)
        = Except.map (magnitudeFilter t) (keywordFilter q rows)
    ∧ ∀ out1 out2,
        Except.bind (applyRegionFilter sel rows) (fun mid => keywordFilter q mid)
            = Except.ok out1 →
        Except.bind (keywordFilter q rows) (fun mid => applyRegionFilter sel mid)
            = Except.ok out2 →
        out1 = out2 := by
  refine ⟨?_, ?_, ?_⟩
  · rw [applyRegionFilter_eq_predE, applyRegionFilter_eq_predE]
    cases regionPredE sel with
    | error e => rfl
    | ok p =>
      show Except.ok ((rows.filter (fun r => magGe r.magnitude t)).filter p)
          = Except.ok ((rows.filter p).filter (fun r => magGe r.magnitude t))
      exact congrArg Except.ok (filter_comm_bool (fun r => magGe r.magnitude t) p rows)
  · rw [keywordFilter_eq_predE, keywordFilter_eq_predE]
    cases keywordPredE q with
    | error e => rfl
    | ok p =>
      show Except.ok ((rows.filter (fun r => magGe r.magnitude t)).filter p)
          = Except.ok ((rows.filter p).filter (fun r => magGe r.magnitude t))
      exact congrArg Except.ok (filter_comm_bool (fun r => magGe r.magnitude t) p rows)
  · intro out1 out2 h1 h2
    simp only [applyRegionFilter_eq_predE, keywordFilter_eq_predE] at h1 h2
    cases hr : regionPredE sel with
    | error e =>
      rw [hr] at h1
      simp [Except.map, Except.bind] at h1
    | ok p =>
      cases hk : keywordPredE q with
      | error e =>
        rw [hr, hk] at h1
        simp [Except.map, Except.bind] at h1
      | ok pk =>
        rw [hr, hk] at h1 h2
        simp only [Except.map, Except.bind, Except.ok.injEq] at h1 h2
        rw [← h1, ← h2]
        exact filter_comm_bool p pk rows

/-- C6 (witness): both composition orders succeed on a concrete batch and
agree. -/
theorem filters_commute_witness :
    Except.bind (applyRegionFilter [("Asia")] [tokyoRec, anytownRec])
        (fun mid => keywordFilter ("japan") mid) = Except.ok [tokyoRec]
    ∧ ([tokyoRec] : List Record) = [tokyoRec] :=
  ⟨rfl,
    (filters_commute 1 [("Asia")] ("japan") [tokyoRec, anytownRec]).2.2
      [tokyoRec] [tokyoRec] rfl rfl⟩

/-- C7: raising the magnitude threshold narrows the filter output — every
record kept at the larger threshold is kept at the smaller one. -/
theorem magnitude_filter_monotone (t1 t2 : ℚ) (h : t1 ≤ t2) (rows : List Record)
    (r : Record) (hr : r ∈ magnitudeFilter t2 rows) :
    r ∈ magnitudeFilter t1 rows := by
  simp only [magnitudeFilter, List.mem_filter] at hr ⊢
  obtain ⟨hmem, hp⟩ := hr
  refine ⟨hmem, ?_⟩
  rw [magGe_eq_true_iff] at hp ⊢
  obtain ⟨x, hx, hle⟩ := hp
  exact ⟨x, hx, le_trans h hle⟩

/-- C7 (witness): monotone narrowing instantiated at thresholds 1 ≤ 2 on a
concrete row. -/
theorem magnitude_filter_monotone_witness :
    (1 : ℚ) ≤ 2 ∧ tokyoRec ∈ magnitudeFilter 1 [noneMagRec, tokyoRec] :=
  ⟨by decide,
    magnitude_filter_monotone 1 2 (by decide) [noneMagRec, tokyoRec] tokyoRec (by decide)⟩

/-- C8: a feature with `time` = 0 normalizes to the UTC epoch instant
exactly (no rounding: the millisecond count is preserved), and its local
time is the same absolute instant re-expressed, timezone-aware, in
America/Los_Angeles with that zone's offset at the epoch (-480 minutes,
PST). -/
theorem epoch_normalization_exact (place : String) (mag : Option ℚ) (lon lat : ℚ) :
    normalizeFeature ⟨some ⟨0, mag, place⟩, some ⟨[lon, lat]⟩⟩
      = Except.ok { place := place
                    magnitude := mag
                    time_utc := ⟨0⟩
                    time_local := ⟨0, -480, "America/Los_Angeles"⟩
                    latitude := lat
                    longitude := lon } := rfl

/-- C9 (counterexample): the date derivation of line 161 is not read-only —
on a concrete one-row frame it changes the frame (a "date" column
appears). -/
theorem date_column_counterexample : addDateColumn df0 ≠ df0 := by decide

/-- C9 (amended): the date derivation leaves the existing rows and columns
unchanged but mutates the input frame by adding a "date" column holding
each row's local calendar date; no (date, count) aggregation is
materialized in this code. -/
theorem date_column_frame_effect (df : DataFrame) :
    (addDateColumn df).rows = df.rows
    ∧ (addDateColumn df).hasCols = df.hasCols
    ∧ (addDateColumn df).dateCol
        = some (df.rows.map (fun r => localDateStr r.time_local)) :=
  ⟨rfl, rfl, rfl⟩

/-- C10: every filter returns a sublist of its input — retained records
are input records, unchanged in every field, in input order. -/
theorem filters_return_subsequences (t : ℚ) (sel : List String) (q : String)
    (rows : List Record) :
    List.Sublist (magnitudeFilter t rows) rows
    ∧ (∀ out, applyRegionFilter sel rows = Except.ok out → List.Sublist out rows)
    ∧ (∀ out, keywordFilter q rows = Except.ok out → List.Sublist out rows) := by
  refine ⟨List.filter_sublist rows, ?_, ?_⟩
  · intro out hout
    rw [applyRegionFilter_eq_predE] at hout
    cases hr : regionPredE sel with
    | error e =>
      rw [hr] at hout
      simp [Except.map] at hout
    | ok p =>
      rw [hr] at hout
      simp only [Except.map, Except.ok.injEq] at hout
      rw [← hout]
      exact List.filter_sublist rows
  · intro out hout
    rw [keywordFilter_eq_predE] at hout
    cases hk : keywordPredE q with
    | error e =>
      rw [hk] at hout
      simp [Except.map] at hout
    | ok p =>
      rw [hk] at hout
      simp only [Except.map, Except.ok.injEq] at hout
      rw [← hout]
      exact List.filter_sublist rows

/-- C10 (witness): the region filter's concrete output is a sublist of the
concrete input. -/
theorem filters_return_subsequences_witness :
    applyRegionFilter [("Asia")] [tokyoRec, anytownRec] = Except.ok [tokyoRec]
    ∧ List.Sublist [tokyoRec] [tokyoRec, anytownRec] :=
  ⟨rfl,
    (filters_return_subsequences 1 [("Asia")] ("japan") [tokyoRec, anytownRec]).2.1
      [tokyoRec] rfl⟩

end EarthquakeApp
